import Mathlib

set_option maxHeartbeats 1000000

/-!
Shallow embedding of the ECS runtime of the goud_cade arcade simulator:
the entity manager, component storages, system scheduler, query engine,
event bus and resource table that `createWorld` composes
(packages/ecs/src/core: Entity.ts, Component.ts, System.ts, World.ts,
Query.ts).

Modelling decisions, all forced by the JS source:
* A JS `Map` is an insertion-ordered association list; `set` replaces the
  value in place when the key is present and appends otherwise, `delete`
  removes the entry.
* A JS `Set` is an insertion-ordered duplicate-free list; `add` appends
  only when the element is absent, `delete` removes the element.  On such
  duplicate-free lists removing by filter coincides with `delete`.
* Component data, resource values and event payloads are `unknown` in the
  source; the embedding is polymorphic in a data type `α`.
* System objects carry an `id` modelling JS object identity (two systems
  with the same `name` are still distinct instances), plus flags recording
  whether the optional `init`/`cleanup` hooks are present.  The calls the
  world makes into systems (`init`, `update`, `cleanup`) are recorded in an
  invocation log (`SysCall`); any world mutation a real system performs
  goes through the same public world operations modelled by `Op` below, so
  state invariants proved over all `Op` sequences cover them.
* The `registeredComponents` array of `createWorld` is written but never
  read by any code path (not even `destroy`), so it is not part of the
  state.
-/

/-- Sample component/event name used by concrete examples. -/
def strA : String := "A"

/-- Second sample name used by concrete examples. -/
def strB : String := "B"

/-- Association-list model of a JS `Map`: `Map.prototype.get`. -/
def mapGet {κ β : Type} [DecidableEq κ] (k : κ) : List (κ × β) → Option β
  | [] => none
  | p :: rest => if p.1 = k then some p.2 else mapGet k rest

/-- `Map.prototype.set`: replace in place when present, append when absent. -/
def mapSet {κ β : Type} [DecidableEq κ] (k : κ) (v : β) : List (κ × β) → List (κ × β)
  | [] => [(k, v)]
  | p :: rest => if p.1 = k then (k, v) :: rest else p :: mapSet k v rest

/-- `Map.prototype.has`. -/
def mapHas {κ β : Type} [DecidableEq κ] (k : κ) (l : List (κ × β)) : Bool :=
  (mapGet k l).isSome

/-- `Map.prototype.delete`. -/
def mapDelete {κ β : Type} [DecidableEq κ] (k : κ) : List (κ × β) → List (κ × β)
  | [] => []
  | p :: rest => if p.1 = k then rest else p :: mapDelete k rest

/-- `Array.from(map.keys())`. -/
def mapKeys {κ β : Type} (l : List (κ × β)) : List κ := l.map Prod.fst

/-- `Set.prototype.add`: append only when the element is absent. -/
def setAdd {κ : Type} [DecidableEq κ] (x : κ) (l : List κ) : List κ :=
  if x ∈ l then l else l ++ [x]

/-- `Set.prototype.delete` on a duplicate-free list. -/
def setDelete {κ : Type} [DecidableEq κ] (x : κ) (l : List κ) : List κ :=
  l.filter (fun y => decide (y ≠ x))

/-- State of `createEntityManager` (Entity.ts): the id counter `nextId`
and the alive set `entities` in insertion order. -/
structure EntityManager where
  nextId : Nat
  entities : List Nat
deriving DecidableEq

/-- `EntityManager.create`: returns the fresh id and the new state. -/
def emCreate (m : EntityManager) : Nat × EntityManager :=
  (m.nextId, ⟨m.nextId + 1, setAdd m.nextId m.entities⟩)

/-- `EntityManager.destroy`. -/
def emDestroy (m : EntityManager) (e : Nat) : EntityManager :=
  ⟨m.nextId, setDelete e m.entities⟩

/-- `EntityManager.exists`. -/
def emExists (m : EntityManager) (e : Nat) : Bool :=
  decide (e ∈ m.entities)

/-- `EntityManager.getAll`: `Array.from(entities)`, insertion order. -/
def emGetAll (m : EntityManager) : List Nat := m.entities

/-- `EntityManager.clear`: empties the alive set and zeroes the counter. -/
def emClear (_ : EntityManager) : EntityManager := ⟨0, []⟩

/-- `EntityManager.count`. -/
def emCount (m : EntityManager) : Nat := m.entities.length

/-- `ComponentType` (Component.ts): a name and a default value. -/
structure ComponentType (α : Type) where
  name : String
  defaultValue : α
deriving DecidableEq

/-- A `System` object (System.ts): `id` models JS object identity;
`hasInit`/`hasCleanup` record whether the optional hooks are present. -/
structure Sys where
  id : Nat
  name : String
  priority : Int
  hasInit : Bool
  hasCleanup : Bool
deriving DecidableEq

/-- One call the world makes into a system: `init`, `update` or `cleanup`
of the system instance with the given id. -/
inductive SysCall where
  | init (sysId : Nat)
  | update (sysId : Nat) (dt : Int)
  | cleanup (sysId : Nat)
deriving DecidableEq

/-- The state built by `createWorld` (World.ts). -/
structure World (α : Type) where
  em : EntityManager
  storages : List (String × List (Nat × α))
  systems : List Sys
  eventHandlers : List (String × List Nat)
  resources : List (String × α)
deriving DecidableEq

/-- The state right after `createWorld()`. -/
def emptyWorld (α : Type) : World α :=
  ⟨⟨0, []⟩, [], [], [], []⟩

/-- The private `getStorage` helper of `createWorld`: returns the storage
for the type, creating (and installing) an empty one when absent. -/
def getStorage {α : Type} (w : World α) (t : ComponentType α) :
    List (Nat × α) × World α :=
  match mapGet t.name w.storages with
  | some s => (s, w)
  | none => ([], { w with storages := mapSet t.name ([] : List (Nat × α)) w.storages })

/-- `World.registerComponent`. -/
def registerComponent {α : Type} (w : World α) (t : ComponentType α) : World α :=
  if mapHas t.name w.storages then w
  else { w with storages := mapSet t.name ([] : List (Nat × α)) w.storages }

/-- `World.addComponent`; the Bool is true when the dead-entity warning
was logged (and the write skipped). -/
def addComponent {α : Type} (w : World α) (e : Nat) (t : ComponentType α) (d : α) :
    World α × Bool :=
  if emExists w.em e then
    let r := getStorage w t
    ({ r.2 with storages := mapSet t.name (mapSet e d r.1) r.2.storages }, false)
  else (w, true)

/-- `World.getComponent`: note it goes through `getStorage` and therefore
also returns the (possibly extended) world. -/
def getComponent {α : Type} (w : World α) (e : Nat) (t : ComponentType α) :
    Option α × World α :=
  let r := getStorage w t
  (mapGet e r.1, r.2)

/-- `World.hasComponent`: `storage?.has(entity) ?? false`; does not create
a storage. -/
def hasComponent {α : Type} (w : World α) (e : Nat) (t : ComponentType α) : Bool :=
  match mapGet t.name w.storages with
  | some s => mapHas e s
  | none => false

/-- `World.removeComponent`: `storage?.remove(entity)`. -/
def removeComponent {α : Type} (w : World α) (e : Nat) (t : ComponentType α) : World α :=
  match mapGet t.name w.storages with
  | some s => { w with storages := mapSet t.name (mapDelete e s) w.storages }
  | none => w

/-- `World.removeAllComponents`: removes the entity from every storage. -/
def removeAllComponents {α : Type} (w : World α) (e : Nat) : World α :=
  { w with storages := w.storages.map (fun p => (p.1, mapDelete e p.2)) }

/-- The insertion step of `World.addSystem`: insert before the first
system whose priority is strictly greater (`findIndex` + `splice`),
append when there is none. -/
def insertSys (s : Sys) : List Sys → List Sys
  | [] => [s]
  | x :: xs => if x.priority > s.priority then s :: x :: xs else x :: insertSys s xs

/-- `findIndex` by name + `splice(i, 1)`: removes the first system with
the given name, returning it as well. -/
def removeNamed (n : String) : List Sys → List Sys × Option Sys
  | [] => ([], none)
  | x :: xs =>
    if x.name = n then (xs, some x)
    else
      let r := removeNamed n xs
      (x :: r.1, r.2)

/-- `World.addSystem`: replace any same-named system (running its cleanup),
insert in priority order, run the new system's init. -/
def addSystem {α : Type} (w : World α) (s : Sys) : World α × List SysCall :=
  let r := removeNamed s.name w.systems
  let cleanupLog : List SysCall :=
    match r.2 with
    | some old => if old.hasCleanup then [SysCall.cleanup old.id] else []
    | none => []
  ({ w with systems := insertSys s r.1 },
   cleanupLog ++ (if s.hasInit then [SysCall.init s.id] else []))

/-- `World.removeSystem`. -/
def removeSystem {α : Type} (w : World α) (n : String) : World α × List SysCall :=
  let r := removeNamed n w.systems
  ({ w with systems := r.1 },
   match r.2 with
   | some old => if old.hasCleanup then [SysCall.cleanup old.id] else []
   | none => [])

/-- `World.getSystem`. -/
def getSystem {α : Type} (w : World α) (n : String) : Option Sys :=
  w.systems.find? (fun s => decide (s.name = n))

/-- `World.update`: calls `update(world, dt)` on each system in list
order; returns the invocation log. -/
def updateWorld {α : Type} (w : World α) (dt : Int) : List SysCall :=
  w.systems.map (fun s => SysCall.update s.id dt)

/-- `World.destroy`: cleanup every system in list order, then clear every
table; returns the cleanup log. -/
def destroyWorld {α : Type} (w : World α) : World α × List SysCall :=
  (emptyWorld α,
   w.systems.filterMap (fun s => if s.hasCleanup then some (SysCall.cleanup s.id) else none))

/-- `World.emit`: the list of (handler, payload) invocations, in
registration order. -/
def emit {α : Type} (w : World α) (ev : String) (p : Option α) : List (Nat × Option α) :=
  match mapGet ev w.eventHandlers with
  | some hs => hs.map (fun h => (h, p))
  | none => []

/-- `World.on`: get-or-create the event's handler set, add the handler. -/
def onEvent {α : Type} (w : World α) (ev : String) (h : Nat) : World α :=
  let hs := (mapGet ev w.eventHandlers).getD []
  { w with eventHandlers := mapSet ev (setAdd h hs) w.eventHandlers }

/-- Invoking the unsubscribe closure returned by `World.on`: the closure
captures the event's handler set and deletes exactly that handler.  Both
closures returned by two `on` calls with the same event and handler
perform the identical deletion. -/
def unsubscribe {α : Type} (w : World α) (ev : String) (h : Nat) : World α :=
  match mapGet ev w.eventHandlers with
  | some hs => { w with eventHandlers := mapSet ev (setDelete h hs) w.eventHandlers }
  | none => w

/-- `World.setResource`. -/
def setResource {α : Type} (w : World α) (k : String) (v : α) : World α :=
  { w with resources := mapSet k v w.resources }

/-- `World.getResource`. -/
def getResource {α : Type} (w : World α) (k : String) : Option α :=
  mapGet k w.resources

/-- `World.query` (direct, AND-only): candidates from the first type's
storage, filtered by membership in every listed type's storage. -/
def query {α : Type} (w : World α) (ts : List (ComponentType α)) : List Nat :=
  match ts with
  | [] => emGetAll w.em
  | t0 :: _ =>
    match mapGet t0.name w.storages with
    | none => []
    | some s0 => (mapKeys s0).filter (fun e => ts.all (fun t => hasComponent w e t))

/-- `QueryBuilder.execute` (Query.ts): scan all alive entities, keep those
having every `with` type and none of the `without` types. -/
def executeQuery {α : Type} (w : World α) (withs withouts : List (ComponentType α)) :
    List Nat :=
  (emGetAll w.em).filter (fun e =>
    withs.all (fun c => hasComponent w e c) &&
      withouts.all (fun c => !hasComponent w e c))

/-- Pure observation of one record in one storage (no storage creation);
used to state frame conditions. -/
def lookupC {α : Type} (w : World α) (n : String) (e : Nat) : Option α :=
  (mapGet n w.storages).bind (fun s => mapGet e s)

/-- `world.entities.create()` at the world level. -/
def worldCreateEntity {α : Type} (w : World α) : Nat × World α :=
  let r := emCreate w.em
  (r.1, { w with em := r.2 })

/-- `world.entities.destroy(e)` at the world level. -/
def worldDestroyEntity {α : Type} (w : World α) (e : Nat) : World α :=
  { w with em := emDestroy w.em e }

/-- `world.entities.clear()` at the world level. -/
def worldClearEntities {α : Type} (w : World α) : World α :=
  { w with em := emClear w.em }

/-- The public mutating surface of a `World`; an `Op` sequence generates
exactly the reachable world states. -/
inductive Op (α : Type) where
  | createE
  | destroyE (e : Nat)
  | clearE
  | register (t : ComponentType α)
  | addComp (e : Nat) (t : ComponentType α) (d : α)
  | getComp (e : Nat) (t : ComponentType α)
  | removeComp (e : Nat) (t : ComponentType α)
  | removeAll (e : Nat)
  | addSys (s : Sys)
  | removeSys (n : String)
  | updateW (dt : Int)
  | destroyW
  | onE (ev : String) (h : Nat)
  | offE (ev : String) (h : Nat)
  | emitE (ev : String) (p : Option α)
  | setRes (k : String) (v : α)
deriving DecidableEq

/-- One step of the world under a public operation, with the system-call
log it produces. -/
def step {α : Type} (w : World α) : Op α → World α × List SysCall
  | .createE => ((worldCreateEntity w).2, [])
  | .destroyE e => (worldDestroyEntity w e, [])
  | .clearE => (worldClearEntities w, [])
  | .register t => (registerComponent w t, [])
  | .addComp e t d => ((addComponent w e t d).1, [])
  | .getComp e t => ((getComponent w e t).2, [])
  | .removeComp e t => (removeComponent w e t, [])
  | .removeAll e => (removeAllComponents w e, [])
  | .addSys s => addSystem w s
  | .removeSys n => removeSystem w n
  | .updateW dt => (w, updateWorld w dt)
  | .destroyW => destroyWorld w
  | .onE ev h => (onEvent w ev h, [])
  | .offE ev h => (unsubscribe w ev h, [])
  | .emitE _ _ => (w, [])
  | .setRes k v => (setResource w k v, [])

/-- Run a sequence of operations, accumulating the system-call log. -/
def runOps {α : Type} : World α → List (Op α) → World α × List SysCall
  | w, [] => (w, [])
  | w, op :: rest =>
    let r := step w op
    let r2 := runOps r.1 rest
    (r2.1, r.2 ++ r2.2)

/-- The set of component names the spec's invariant says have a storage:
written to by `addComponent` on an alive entity, or registered.  Reset by
`World.destroy`, which clears every storage. -/
def touchClaim {α : Type} (w : World α) (names : List String) : Op α → List String
  | .register t => setAdd t.name names
  | .addComp e t _ => if emExists w.em e then setAdd t.name names else names
  | .destroyW => []
  | _ => names

/-- The amended set: also counts `getComponent`, which goes through
`getStorage` and creates the storage when absent. -/
def touchAmended {α : Type} (w : World α) (names : List String) : Op α → List String
  | .register t => setAdd t.name names
  | .addComp e t _ => if emExists w.em e then setAdd t.name names else names
  | .getComp _ t => setAdd t.name names
  | .destroyW => []
  | _ => names

/-- Run operations tracking the spec-claimed written-or-registered set. -/
def runClaimTouch {α : Type} :
    World α → List String → List (Op α) → World α × List String
  | w, names, [] => (w, names)
  | w, names, op :: rest => runClaimTouch (step w op).1 (touchClaim w names op) rest

/-- Run operations tracking the amended written-registered-or-read set. -/
def runAmendedTouch {α : Type} :
    World α → List String → List (Op α) → World α × List String
  | w, names, [] => (w, names)
  | w, names, op :: rest => runAmendedTouch (step w op).1 (touchAmended w names op) rest

/-- Entity-manager operations without `clear`, for the id claims. -/
inductive EMOp where
  | create
  | destroy (e : Nat)
deriving DecidableEq

/-- One entity-manager step, with the ids returned by `create`. -/
def emStep : EntityManager → EMOp → EntityManager × List Nat
  | m, .create =>
    let r := emCreate m
    (r.2, [r.1])
  | m, .destroy e => (emDestroy m e, [])

/-- The ids returned by `create` along a sequence of create/destroy calls. -/
def emRunIds : EntityManager → List EMOp → List Nat
  | _, [] => []
  | m, op :: rest =>
    let r := emStep m op
    r.2 ++ emRunIds r.1 rest

/-- Number of `create` calls in a sequence. -/
def countCreates : List EMOp → Nat
  | [] => 0
  | .create :: rest => countCreates rest + 1
  | .destroy _ :: rest => countCreates rest

/-- A freshly constructed entity manager. -/
def freshEM : EntityManager := ⟨0, []⟩

/-- A Bool-valued statement that no `addSystem` operation in the sequence
re-adds the system instance with the given id. -/
def opsAvoidId {α : Type} (i : Nat) (ops : List (Op α)) : Bool :=
  ops.all (fun op =>
    match op with
    | Op.addSys t => decide (t.id ≠ i)
    | _ => true)

/-- Sample component type used by concrete examples. -/
def cexA : ComponentType Nat := ⟨strA, 0⟩

/-- World reached by create; addComponent(0, A, 7): one alive entity
holding component A. -/
def c7World : World Nat :=
  (runOps (emptyWorld Nat) [Op.createE, Op.addComp 0 cexA 7]).1

/-- World reached by create; addComponent(0, A, 7); entities.destroy(0):
a destroyed entity whose component data is still in storage. -/
def c1World : World Nat :=
  (runOps (emptyWorld Nat) [Op.createE, Op.addComp 0 cexA 7, Op.destroyE 0]).1

/-- Old system instance for the replacement example: named A, with a
cleanup hook. -/
def c4Old : Sys := ⟨5, strA, 100, false, true⟩

/-- Replacement system instance: same name A, different identity. -/
def c4New : Sys := ⟨6, strA, 100, true, true⟩

/-- World whose only system is the old instance named A. -/
def c4World : World Nat :=
  { emptyWorld Nat with systems := [c4Old] }

/-- System A with priority 200 for the ordering example. -/
def sysA : Sys := ⟨0, strA, 200, false, false⟩

/-- System B with priority 100 for the ordering example. -/
def sysB : Sys := ⟨1, strB, 100, false, false⟩

/-- Fold of `addSystem` over a list of systems (the world-level fold). -/
def addSystems {α : Type} (w : World α) (L : List Sys) : World α :=
  L.foldl (fun acc s => (addSystem acc s).1) w

/-- The same fold at the level of the system list alone. -/
def sysFoldAdd (acc : List Sys) (L : List Sys) : List Sys :=
  L.foldl (fun acc2 s => insertSys s (removeNamed s.name acc2).1) acc

/- ===================== Theorems ===================== -/

theorem mapGet_mapSet_self {κ β : Type} [DecidableEq κ] (k : κ) (v : β)
    (l : List (κ × β)) : mapGet k (mapSet k v l) = some v := by
  induction l with
  | nil => simp [mapGet, mapSet]
  | cons p rest ih =>
    by_cases h : p.1 = k
    · simp [mapGet, mapSet, h]
    · simp [mapGet, mapSet, h, ih]

theorem mapGet_mapSet_ne {κ β : Type} [DecidableEq κ] {k k' : κ} (v : β)
    (l : List (κ × β)) (h : k' ≠ k) : mapGet k' (mapSet k v l) = mapGet k' l := by
  have hne : ¬ k = k' := fun h2 => h h2.symm
  induction l with
  | nil => simp [mapGet, mapSet, hne]
  | cons p rest ih =>
    by_cases hp : p.1 = k
    · subst hp
      simp [mapGet, mapSet, hne]
    · simp only [mapSet, if_neg hp]
      by_cases hp' : p.1 = k'
      · simp [mapGet, hp']
      · simp [mapGet, hp', ih]

theorem mapSet_mapSet {κ β : Type} [DecidableEq κ] (k : κ) (v u : β)
    (l : List (κ × β)) : mapSet k v (mapSet k u l) = mapSet k v l := by
  induction l with
  | nil => simp [mapSet]
  | cons p rest ih =>
    by_cases h : p.1 = k
    · simp [mapSet, h]
    · simp [mapSet, h, ih]

theorem mapHas_mapSet_iff {κ β : Type} [DecidableEq κ] (n k : κ) (v : β)
    (l : List (κ × β)) :
    mapHas n (mapSet k v l) = true ↔ n = k ∨ mapHas n l = true := by
  by_cases h : n = k
  · subst h
    simp [mapHas, mapGet_mapSet_self]
  · simp [mapHas, mapGet_mapSet_ne v l h, h]

theorem mapGet_map_snd {κ β γ : Type} [DecidableEq κ] (n : κ) (f : β → γ)
    (l : List (κ × β)) :
    mapGet n (l.map (fun p => (p.1, f p.2))) = (mapGet n l).map f := by
  induction l with
  | nil => simp [mapGet]
  | cons p rest ih =>
    by_cases h : p.1 = n
    · simp [mapGet, h]
    · simp [mapGet, h, ih]

theorem mapGet_eq_some_mem {κ β : Type} [DecidableEq κ] {k : κ} {v : β}
    {l : List (κ × β)} (h : mapGet k l = some v) : (k, v) ∈ l := by
  induction l with
  | nil => simp [mapGet] at h
  | cons p rest ih =>
    by_cases hp : p.1 = k
    · simp only [mapGet, if_pos hp] at h
      have hv := Option.some.inj h
      have hpe : p = (k, v) := by
        obtain ⟨pk, pv⟩ := p
        simp_all
      rw [hpe]
      exact List.mem_cons_self _ _
    · simp only [mapGet, if_neg hp] at h
      exact List.mem_cons_of_mem p (ih h)

theorem mapHas_iff_mem_keys {κ β : Type} [DecidableEq κ] (k : κ)
    (l : List (κ × β)) : mapHas k l = true ↔ k ∈ mapKeys l := by
  induction l with
  | nil => simp [mapHas, mapGet, mapKeys]
  | cons p rest ih =>
    by_cases hp : p.1 = k
    · simp [mapHas, mapGet, mapKeys, hp]
    · simp only [mapHas, mapGet, if_neg hp, mapKeys, List.map_cons, List.mem_cons]
      rw [← mapKeys]
      rw [mapHas] at ih
      rw [ih]
      constructor
      · intro h2; right; exact h2
      · intro h2
        rcases h2 with h2 | h2
        · exact absurd h2.symm hp
        · exact h2

theorem mem_setAdd {κ : Type} [DecidableEq κ] (a x : κ) (l : List κ) :
    a ∈ setAdd x l ↔ a = x ∨ a ∈ l := by
  by_cases h : x ∈ l
  · simp only [setAdd, if_pos h]
    constructor
    · intro h2; right; exact h2
    · intro h2
      rcases h2 with h2 | h2
      · exact h2 ▸ h
      · exact h2
  · simp [setAdd, if_neg h, or_comm]

theorem mem_setAdd_self {κ : Type} [DecidableEq κ] (x : κ) (l : List κ) :
    x ∈ setAdd x l := (mem_setAdd x x l).mpr (Or.inl rfl)

theorem setAdd_setAdd {κ : Type} [DecidableEq κ] (x : κ) (l : List κ) :
    setAdd x (setAdd x l) = setAdd x l := by
  show (if x ∈ setAdd x l then setAdd x l else setAdd x l ++ [x]) = setAdd x l
  rw [if_pos (mem_setAdd_self x l)]

theorem nodup_setAdd {κ : Type} [DecidableEq κ] (x : κ) (l : List κ)
    (h : l.Nodup) : (setAdd x l).Nodup := by
  by_cases hx : x ∈ l
  · simpa [setAdd, if_pos hx] using h
  · simp only [setAdd, if_neg hx]
    simpa [List.nodup_append] using ⟨h, fun h2 => hx h2⟩

theorem not_mem_setDelete_self {κ : Type} [DecidableEq κ] (x : κ) (l : List κ) :
    x ∉ setDelete x l := by
  simp [setDelete, List.mem_filter]

theorem emRunIds_eq_range' (ops : List EMOp) :
    ∀ m : EntityManager, emRunIds m ops = List.range' m.nextId (countCreates ops) := by
  induction ops with
  | nil => intro m; rfl
  | cons op rest ih =>
    intro m
    cases op with
    | create =>
      show m.nextId :: emRunIds ⟨m.nextId + 1, setAdd m.nextId m.entities⟩ rest =
        List.range' m.nextId (countCreates rest + 1)
      rw [ih]
      rfl
    | destroy e =>
      show emRunIds (emDestroy m e) rest = List.range' m.nextId (countCreates rest)
      rw [ih]
      rfl

/-- C6: along any sequence of `create()`/`destroy()` calls with no
intervening `clear()` on a fresh entity manager, the ids returned by
`create()` are exactly `0, 1, 2, …` — unique, strictly increasing by 1
from 0, never recycled; and `clear()` resets the manager (counter zeroed)
to the freshly constructed state. -/
theorem entity_ids_strictly_increasing_no_recycling :
    (∀ ops : List EMOp, emRunIds freshEM ops = List.range (countCreates ops)) ∧
    (∀ m : EntityManager, emClear m = freshEM) := by
  constructor
  · intro ops
    rw [emRunIds_eq_range' ops freshEM, List.range_eq_range']
    rfl
  · intro m
    rfl

/-- C8: after `world.destroy()` the world is inert: `update(dt)` makes no
system call at all (the model is total, so nothing is thrown),
`entities.getAll()` is empty, and `getResource` is the absent sentinel
`none` on every key, including previously-set ones. -/
theorem destroyed_world_inert {α : Type} (w : World α) (dt : Int) (k : String) :
    updateWorld (destroyWorld w).1 dt = [] ∧
    emGetAll (destroyWorld w).1.em = [] ∧
    getResource (destroyWorld w).1 k = none :=
  ⟨rfl, rfl, rfl⟩

/-- C7: `entities.destroy(e)` removes `e` from the alive set but leaves
every component storage untouched, so `getComponent(e, T)` still returns
the record that was set before the destroy. -/
theorem destroy_entity_keeps_component_data {α : Type} (w : World α) (e : Nat)
    (t : ComponentType α) (d : α) (hset : lookupC w t.name e = some d) :
    emExists (worldDestroyEntity w e).em e = false ∧
    (worldDestroyEntity w e).storages = w.storages ∧
    (getComponent (worldDestroyEntity w e) e t).1 = some d := by
  refine ⟨?_, rfl, ?_⟩
  · simp only [worldDestroyEntity, emDestroy, emExists]
    simpa using not_mem_setDelete_self e w.em.entities
  · rcases Option.bind_eq_some.mp hset with ⟨s, hs, hd⟩
    simp only [getComponent, getStorage, worldDestroyEntity]
    rw [show ({ w with em := emDestroy w.em e } : World α).storages = w.storages from rfl, hs]
    exact hd

/-- C7 witness: in the world `create(); addComponent(0, A, 7)`, destroying
entity 0 makes it non-existent while `getComponent(0, A)` still returns 7. -/
theorem destroy_entity_keeps_component_data_witness :
    lookupC c7World strA 0 = some 7 ∧
    (emExists (worldDestroyEntity c7World 0).em 0 = false ∧
     (worldDestroyEntity c7World 0).storages = c7World.storages ∧
     (getComponent (worldDestroyEntity c7World 0) 0 cexA).1 = some 7) :=
  ⟨by decide, destroy_entity_keeps_component_data c7World 0 cexA 7 (by decide)⟩

theorem addComponent_alive_parts {α : Type} (w : World α) (e : Nat)
    (t : ComponentType α) (d : α) (h : emExists w.em e = true) :
    addComponent w e t d =
      ({ w with storages :=
          mapSet t.name (mapSet e d ((mapGet t.name w.storages).getD [])) w.storages },
       false) := by
  rcases hms : mapGet t.name w.storages with _ | s
  · simp [addComponent, h, getStorage, hms, mapSet_mapSet]
  · simp [addComponent, h, getStorage, hms]

/-- C5: `addComponent` on a dead entity is a pure no-op apart from the
logged warning — the whole world state is returned unchanged, no storage
is created and no record is written; on an alive entity no warning is
logged, the whole record for the entity in that type's storage becomes
exactly the given data (the storage being created lazily if missing),
and nothing else in the world changes. -/
theorem addComponent_dead_noop_alive_replaces {α : Type} (w : World α) (e : Nat)
    (t : ComponentType α) (d : α) :
    (emExists w.em e = false → addComponent w e t d = (w, true)) ∧
    (emExists w.em e = true →
      (addComponent w e t d).2 = false ∧
      lookupC (addComponent w e t d).1 t.name e = some d ∧
      mapHas t.name (addComponent w e t d).1.storages = true ∧
      (∀ e2, e2 ≠ e →
        lookupC (addComponent w e t d).1 t.name e2 = lookupC w t.name e2) ∧
      (∀ n, n ≠ t.name →
        mapGet n (addComponent w e t d).1.storages = mapGet n w.storages) ∧
      (addComponent w e t d).1.em = w.em ∧
      (addComponent w e t d).1.systems = w.systems ∧
      (addComponent w e t d).1.eventHandlers = w.eventHandlers ∧
      (addComponent w e t d).1.resources = w.resources) := by
  constructor
  · intro h
    simp [addComponent, h]
  · intro h
    rw [addComponent_alive_parts w e t d h]
    refine ⟨rfl, ?_, ?_, ?_, ?_, rfl, rfl, rfl, rfl⟩
    · simp [lookupC, mapGet_mapSet_self]
    · simp [mapHas, mapGet_mapSet_self]
    · intro e2 he2
      simp only [lookupC, mapGet_mapSet_self, Option.bind_some, Option.some_bind]
      rw [mapGet_mapSet_ne d _ he2]
      rcases hms : mapGet t.name w.storages with _ | s <;> simp [hms, mapGet]
    · intro n hn
      exact mapGet_mapSet_ne _ _ hn

/-- C5 witness: in the world `create(); addComponent(0, A, 7)`, writing to
the dead entity 5 changes nothing and warns, while writing 9 to the alive
entity 0 replaces its record. -/
theorem addComponent_dead_noop_alive_replaces_witness :
    (emExists c7World.em 5 = false ∧ addComponent c7World 5 cexA 9 = (c7World, true)) ∧
    (emExists c7World.em 0 = true ∧ lookupC (addComponent c7World 0 cexA 9).1 strA 0 = some 9) := by
  constructor
  · exact ⟨by decide, (addComponent_dead_noop_alive_replaces c7World 5 cexA 9).1 (by decide)⟩
  · exact ⟨by decide, ((addComponent_dead_noop_alive_replaces c7World 0 cexA 9).2 (by decide)).2.1⟩

theorem filter_eq_single_of_nodup (a : Nat) (l : List Nat) (hnd : l.Nodup)
    (hmem : a ∈ l) : l.filter (fun y => decide (y = a)) = [a] := by
  induction l with
  | nil => simp at hmem
  | cons x xs ih =>
    rcases List.mem_cons.mp hmem with h | h
    · have hax : x = a := h.symm
      subst hax
      have hnotin : x ∉ xs := (List.nodup_cons.mp hnd).1
      have hnil : xs.filter (fun y => decide (y = x)) = [] := by
        apply List.filter_eq_nil_iff.mpr
        intro b hb
        simp only [decide_eq_true_eq]
        intro he
        exact hnotin (he ▸ hb)
      simp [List.filter_cons, hnil]
    · have hxa : ¬ (x = a) := by
        intro he
        exact (List.nodup_cons.mp hnd).1 (he ▸ h)
      simp only [List.filter_cons, decide_eq_true_eq, hxa, if_false]
      exact ih (List.nodup_cons.mp hnd).2 h

theorem filter_setDelete_self (a : Nat) (l : List Nat) :
    (setDelete a l).filter (fun y => decide (y = a)) = [] := by
  simp only [setDelete]
  rw [List.filter_filter]
  apply List.filter_eq_nil_iff.mpr
  intro b hb
  simp

theorem onEvent_emit_core {α : Type} (w : World α) (ev : String) (h : Nat)
    (p : Option α) (hnd : ((mapGet ev w.eventHandlers).getD []).Nodup) :
    (emit (onEvent w ev h) ev p).filter (fun c => decide (c.1 = h)) = [(h, p)] ∧
    (emit (unsubscribe (onEvent w ev h) ev h) ev p).filter (fun c => decide (c.1 = h)) = [] := by
  have hget : mapGet ev (onEvent w ev h).eventHandlers =
      some (setAdd h ((mapGet ev w.eventHandlers).getD [])) := by
    simp [onEvent, mapGet_mapSet_self]
  have h1 : emit (onEvent w ev h) ev p =
      (setAdd h ((mapGet ev w.eventHandlers).getD [])).map (fun x => (x, p)) := by
    simp [emit, hget]
  have hmemh : h ∈ setAdd h ((mapGet ev w.eventHandlers).getD []) := mem_setAdd_self _ _
  have hnd2 : (setAdd h ((mapGet ev w.eventHandlers).getD [])).Nodup := nodup_setAdd _ _ hnd
  have hcomp : ((fun c : Nat × Option α => decide (c.1 = h)) ∘ (fun x => (x, p))) =
      (fun y => decide (y = h)) := rfl
  constructor
  · rw [h1, List.filter_map, hcomp, filter_eq_single_of_nodup h _ hnd2 hmemh]
    rfl
  · have h2 : emit (unsubscribe (onEvent w ev h) ev h) ev p =
        (setDelete h (setAdd h ((mapGet ev w.eventHandlers).getD []))).map (fun x => (x, p)) := by
      simp [unsubscribe, hget, emit, mapGet_mapSet_self]
    rw [h2, List.filter_map, hcomp, filter_setDelete_self]
    rfl

/-- C9: `on(e, h)` followed by `emit(e, p)` invokes `h` exactly once, with
payload `p` (the emit log restricted to `h` is exactly `[(h, p)]`); after
invoking the unsubscribe closure, a further `emit(e, p)` does not invoke
`h` at all.  The hypothesis is the JS `Set` well-formedness of the event's
handler list (no duplicates), which holds in every reachable world. -/
theorem on_emit_once_unsubscribe_stops {α : Type} (w : World α) (ev : String)
    (h : Nat) (p : Option α) (hnd : ((mapGet ev w.eventHandlers).getD []).Nodup) :
    (emit (onEvent w ev h) ev p).filter (fun c => decide (c.1 = h)) = [(h, p)] ∧
    (emit (unsubscribe (onEvent w ev h) ev h) ev p).filter (fun c => decide (c.1 = h)) = [] :=
  onEvent_emit_core w ev h p hnd

/-- C9 witness: subscribing handler 3 to event A on a fresh world, an emit
with payload 5 calls it exactly once; after unsubscribing, not at all. -/
theorem on_emit_once_unsubscribe_stops_witness :
    ((mapGet strA (emptyWorld Nat).eventHandlers).getD []).Nodup ∧
    ((emit (onEvent (emptyWorld Nat) strA 3) strA (some 5)).filter
        (fun c => decide (c.1 = 3)) = [(3, some 5)] ∧
     (emit (unsubscribe (onEvent (emptyWorld Nat) strA 3) strA 3) strA (some 5)).filter
        (fun c => decide (c.1 = 3)) = []) :=
  ⟨by decide, on_emit_once_unsubscribe_stops (emptyWorld Nat) strA 3 (some 5) (by decide)⟩

theorem onEvent_onEvent {α : Type} (w : World α) (ev : String) (h : Nat) :
    onEvent (onEvent w ev h) ev h = onEvent w ev h := by
  simp only [onEvent, mapGet_mapSet_self, Option.getD_some]
  rw [setAdd_setAdd, mapSet_mapSet]

/-- C10: subscribing the identical handler function twice to the same
event behaves as a single subscription (the world states are equal, since
the JS `Set` refuses the duplicate), so an emit still invokes the handler
exactly once, and one invocation of the unsubscribe closure — the closures
returned by both `on` calls delete the same handler from the same set —
removes it entirely, after which emits do not invoke it. -/
theorem double_subscribe_idempotent {α : Type} (w : World α) (ev : String)
    (h : Nat) (p : Option α) (hnd : ((mapGet ev w.eventHandlers).getD []).Nodup) :
    onEvent (onEvent w ev h) ev h = onEvent w ev h ∧
    (emit (onEvent (onEvent w ev h) ev h) ev p).filter
      (fun c => decide (c.1 = h)) = [(h, p)] ∧
    (emit (unsubscribe (onEvent (onEvent w ev h) ev h) ev h) ev p).filter
      (fun c => decide (c.1 = h)) = [] := by
  have heq := onEvent_onEvent w ev h
  have hc := onEvent_emit_core w ev h p hnd
  refine ⟨heq, ?_, ?_⟩
  · rw [heq]
    exact hc.1
  · rw [heq]
    exact hc.2

/-- C10 witness: double-subscribing handler 4 to event B on a fresh world
acts as one subscription; emit calls it once, and after one unsubscribe
never again. -/
theorem double_subscribe_idempotent_witness :
    ((mapGet strB (emptyWorld Nat).eventHandlers).getD []).Nodup ∧
    (onEvent (onEvent (emptyWorld Nat) strB 4) strB 4 = onEvent (emptyWorld Nat) strB 4 ∧
     (emit (onEvent (onEvent (emptyWorld Nat) strB 4) strB 4) strB (some 9)).filter
       (fun c => decide (c.1 = 4)) = [(4, some 9)] ∧
     (emit (unsubscribe (onEvent (onEvent (emptyWorld Nat) strB 4) strB 4) strB 4) strB (some 9)).filter
       (fun c => decide (c.1 = 4)) = []) :=
  ⟨by decide, double_subscribe_idempotent (emptyWorld Nat) strB 4 (some 9) (by decide)⟩

/-- C1 (amended): the fluent query `with(T1,…,Tn).execute(world)` (no
`without`) and the direct `world.query(T1,…,Tn)` return the same set of
entities *provided every entity present in a component storage is alive*.
The proviso is forced by the destroy/component asymmetry: the direct
query draws candidates from the first type's storage, which still holds
destroyed entities' data, while the fluent query scans only alive
entities (see the counterexample). -/
theorem fluent_query_agrees_with_direct_query_on_alive_storages {α : Type}
    (w : World α) (ts : List (ComponentType α)) (hne : ts ≠ [])
    (halive : ∀ pr ∈ w.storages, ∀ q ∈ pr.2, q.1 ∈ w.em.entities) :
    (query w ts).toFinset = (executeQuery w ts []).toFinset := by
  rcases ts with _ | ⟨t0, rest⟩
  · exact absurd rfl hne
  rcases hq : mapGet t0.name w.storages with _ | s0
  · have hqe : query w (t0 :: rest) = [] := by simp [query, hq]
    have hee : executeQuery w (t0 :: rest) [] = [] := by
      apply List.filter_eq_nil_iff.mpr
      intro b hb
      simp [hasComponent, hq]
    rw [hqe, hee]
  · have hqe : query w (t0 :: rest) =
        (mapKeys s0).filter (fun e => (t0 :: rest).all (fun t => hasComponent w e t)) := by
      simp [query, hq]
    rw [hqe]
    ext a
    simp only [List.mem_toFinset, List.mem_filter, executeQuery, emGetAll]
    constructor
    · rintro ⟨hk, hall⟩
      refine ⟨?_, ?_⟩
      · have hhas : mapHas a s0 = true := (mapHas_iff_mem_keys a s0).mpr hk
        rcases Option.isSome_iff_exists.mp hhas with ⟨v, hv⟩
        exact halive (t0.name, s0) (mapGet_eq_some_mem hq) (a, v) (mapGet_eq_some_mem hv)
      · simpa using hall
    · rintro ⟨hmem, hcond⟩
      have hall : (t0 :: rest).all (fun t => hasComponent w a t) = true := by
        simpa using hcond
      refine ⟨?_, hall⟩
      have h0 : hasComponent w a t0 = true :=
        List.all_eq_true.mp hall t0 (List.mem_cons_self _ _)
      have hhas : mapHas a s0 = true := by
        simpa [hasComponent, hq] using h0
      exact (mapHas_iff_mem_keys a s0).mp hhas

/-- C1 counterexample: in the reachable world `create(); addComponent(0, A, 7);
entities.destroy(0)`, the direct query still returns the destroyed entity 0
(destroy does not clear component data, and `query` draws candidates from
the storage), while the fluent query scans only alive entities and returns
nothing — refuting the claimed equivalence for arbitrary world states. -/
theorem fluent_direct_query_disagree_after_destroy :
    (query c1World [cexA]).toFinset ≠ (executeQuery c1World [cexA] []).toFinset := by
  decide

/-- C1 witness: in the world `create(); addComponent(0, A, 7)` every stored
entity is alive and both queries agree on the component list `[A]`. -/
theorem fluent_query_agrees_with_direct_query_witness :
    (([cexA] : List (ComponentType Nat)) ≠ [] ∧
     ∀ pr ∈ c7World.storages, ∀ q ∈ pr.2, q.1 ∈ c7World.em.entities) ∧
    (query c7World [cexA]).toFinset = (executeQuery c7World [cexA] []).toFinset :=
  ⟨⟨by decide, by decide⟩,
   fluent_query_agrees_with_direct_query_on_alive_storages c7World [cexA]
     (by decide) (by decide)⟩

theorem register_keys_iff {α : Type} (w : World α) (t : ComponentType α)
    (names : List String) (hInv : ∀ n, mapHas n w.storages = true ↔ n ∈ names) :
    ∀ n, mapHas n (registerComponent w t).storages = true ↔ n ∈ setAdd t.name names := by
  intro n
  rw [mem_setAdd]
  by_cases h : mapHas t.name w.storages = true
  · simp only [registerComponent, h, if_true]
    constructor
    · intro h2
      exact Or.inr ((hInv n).mp h2)
    · intro h2
      rcases h2 with h2 | h2
      · exact h2 ▸ h
      · exact (hInv n).mpr h2
  · rw [Bool.not_eq_true] at h
    simp only [registerComponent, h, Bool.false_eq_true, if_false]
    rw [mapHas_mapSet_iff, hInv n]

theorem getStorage_snd_storages {α : Type} (w : World α) (t : ComponentType α) :
    (getStorage w t).2.storages = (registerComponent w t).storages := by
  rcases hq : mapGet t.name w.storages with _ | s
  · simp [getStorage, hq, registerComponent, mapHas]
  · simp [getStorage, hq, registerComponent, mapHas]

theorem step_storages_inv {α : Type} (w : World α) (names : List String) (op : Op α)
    (hInv : ∀ n, mapHas n w.storages = true ↔ n ∈ names) :
    ∀ n, mapHas n (step w op).1.storages = true ↔ n ∈ touchAmended w names op := by
  cases op with
  | createE => simpa [step, worldCreateEntity, touchAmended] using hInv
  | destroyE e => simpa [step, worldDestroyEntity, touchAmended] using hInv
  | clearE => simpa [step, worldClearEntities, touchAmended] using hInv
  | register t =>
    intro n
    simpa [step, touchAmended] using register_keys_iff w t names hInv n
  | addComp e t d =>
    intro n
    by_cases he : emExists w.em e = true
    · have hstep : (step w (Op.addComp e t d)).1.storages =
          mapSet t.name (mapSet e d ((mapGet t.name w.storages).getD [])) w.storages := by
        show (addComponent w e t d).1.storages = _
        rw [addComponent_alive_parts w e t d he]
      simp only [touchAmended, he, if_true]
      rw [hstep, mapHas_mapSet_iff, hInv n, mem_setAdd]
    · rw [Bool.not_eq_true] at he
      simp [step, addComponent, he, touchAmended, hInv n]
  | getComp e t =>
    intro n
    have hstep : (step w (Op.getComp e t)).1.storages = (registerComponent w t).storages :=
      getStorage_snd_storages w t
    rw [show touchAmended w names (Op.getComp e t) = setAdd t.name names from rfl]
    rw [hstep]
    exact register_keys_iff w t names hInv n
  | removeComp e t =>
    intro n
    rcases hq : mapGet t.name w.storages with _ | s
    · simp [step, removeComponent, hq, touchAmended, hInv n]
    · have hhas : mapHas t.name w.storages = true := by simp [mapHas, hq]
      simp only [step, removeComponent, hq, touchAmended]
      rw [mapHas_mapSet_iff]
      constructor
      · rintro (h | h)
        · exact (hInv n).mp (h ▸ hhas)
        · exact (hInv n).mp h
      · intro h
        exact Or.inr ((hInv n).mpr h)
  | removeAll e =>
    intro n
    simp only [step, removeAllComponents, touchAmended]
    rw [show mapHas n (w.storages.map (fun p => (p.1, mapDelete e p.2))) =
        ((mapGet n w.storages).map (mapDelete e)).isSome from by
      rw [mapHas, mapGet_map_snd]]
    rw [show (Option.map (mapDelete e) (mapGet n w.storages)).isSome =
        (mapGet n w.storages).isSome from by
      rcases mapGet n w.storages with _ | s <;> rfl]
    exact hInv n
  | addSys s => simpa [step, addSystem, touchAmended] using hInv
  | removeSys nm => simpa [step, removeSystem, touchAmended] using hInv
  | updateW dt => simpa [step, touchAmended] using hInv
  | destroyW =>
    intro n
    simp [step, destroyWorld, emptyWorld, touchAmended, mapHas, mapGet]
  | onE ev h => simpa [step, onEvent, touchAmended] using hInv
  | offE ev h =>
    intro n
    rcases hq : mapGet ev w.eventHandlers with _ | hs <;>
      simp [step, unsubscribe, hq, touchAmended, hInv n]
  | emitE ev p => simpa [step, touchAmended] using hInv
  | setRes k v => simpa [step, setResource, touchAmended] using hInv

theorem runAmendedTouch_inv {α : Type} (ops : List (Op α)) :
    ∀ (w : World α) (names : List String),
      (∀ n, mapHas n w.storages = true ↔ n ∈ names) →
      ∀ n, mapHas n (runAmendedTouch w names ops).1.storages = true ↔
        n ∈ (runAmendedTouch w names ops).2 := by
  induction ops with
  | nil =>
    intro w names hInv n
    exact hInv n
  | cons op rest ih =>
    intro w names hInv n
    exact ih (step w op).1 (touchAmended w names op) (step_storages_inv w names op hInv) n

/-- C2 (amended): at every world state reachable by a sequence of public
operations, a component storage exists for a type name iff that name has
been written to via `addComponent` on an alive entity, explicitly
registered via `registerComponent`, **or passed to `getComponent`** since
construction (or the last `World.destroy`, which clears all storages) —
`getComponent` goes through `getStorage` and creates the storage, so the
claim's read-only exemption fails (see the counterexample). -/
theorem storage_exists_iff_written_registered_or_read {α : Type}
    (ops : List (Op α)) (n : String) :
    mapHas n (runAmendedTouch (emptyWorld α) [] ops).1.storages = true ↔
      n ∈ (runAmendedTouch (emptyWorld α) [] ops).2 := by
  refine runAmendedTouch_inv ops (emptyWorld α) [] ?_ n
  intro m
  simp [emptyWorld, mapHas, mapGet]

/-- C2 counterexample: on a fresh world, the single read-only call
`getComponent(0, A)` creates the storage for A even though A was never
written to nor registered — the claimed iff fails at this input. -/
theorem storage_created_by_getComponent_refutes_claim :
    ¬ (mapHas strA (runClaimTouch (emptyWorld Nat) [] [Op.getComp 0 cexA]).1.storages = true ↔
       strA ∈ (runClaimTouch (emptyWorld Nat) [] [Op.getComp 0 cexA]).2) := by
  decide

theorem mem_insertSys (a s : Sys) (l : List Sys) :
    a ∈ insertSys s l ↔ a = s ∨ a ∈ l := by
  induction l with
  | nil => simp [insertSys]
  | cons x xs ih =>
    by_cases h : x.priority > s.priority
    · simp only [insertSys, if_pos h, List.mem_cons]
    · simp only [insertSys, if_neg h, List.mem_cons, ih]
      tauto

theorem insertSys_perm (s : Sys) (l : List Sys) :
    List.Perm (insertSys s l) (s :: l) := by
  induction l with
  | nil => exact List.Perm.refl _
  | cons x xs ih =>
    by_cases h : x.priority > s.priority
    · simp only [insertSys, if_pos h]
      exact List.Perm.refl _
    · simp only [insertSys, if_neg h]
      exact (ih.cons x).trans (List.Perm.swap s x xs)

theorem pairwise_insertSys (s : Sys) (l : List Sys)
    (h : List.Pairwise (fun a b : Sys => a.priority ≤ b.priority) l) :
    List.Pairwise (fun a b : Sys => a.priority ≤ b.priority) (insertSys s l) := by
  induction l with
  | nil => simp [insertSys]
  | cons x xs ih =>
    rcases List.pairwise_cons.mp h with ⟨hx, hxs⟩
    by_cases hp : x.priority > s.priority
    · simp only [insertSys, if_pos hp]
      refine List.pairwise_cons.mpr ⟨?_, h⟩
      intro b hb
      rcases List.mem_cons.mp hb with hb | hb
      · exact hb ▸ le_of_lt hp
      · exact le_of_lt (lt_of_lt_of_le hp (hx b hb))
    · simp only [insertSys, if_neg hp]
      refine List.pairwise_cons.mpr ⟨?_, ih hxs⟩
      intro b hb
      rcases (mem_insertSys b s xs).mp hb with hb | hb
      · exact hb ▸ le_of_not_lt hp
      · exact hx b hb

theorem filter_insertSys (s : Sys) (p : Int) (l : List Sys)
    (h : List.Pairwise (fun a b : Sys => a.priority ≤ b.priority) l) :
    (insertSys s l).filter (fun x => decide (x.priority = p)) =
      if s.priority = p
      then l.filter (fun x => decide (x.priority = p)) ++ [s]
      else l.filter (fun x => decide (x.priority = p)) := by
  induction l with
  | nil =>
    by_cases hs : s.priority = p <;> simp [insertSys, List.filter_cons, hs]
  | cons x xs ih =>
    rcases List.pairwise_cons.mp h with ⟨hx, hxs⟩
    by_cases hp : x.priority > s.priority
    · simp only [insertSys, if_pos hp]
      by_cases hs : s.priority = p
      · have hnone : (x :: xs).filter (fun y => decide (y.priority = p)) = [] := by
          apply List.filter_eq_nil_iff.mpr
          intro b hb
          simp only [decide_eq_true_eq]
          intro hbp
          rcases List.mem_cons.mp hb with hb | hb
          · rw [hb] at hbp
            omega
          · have := hx b hb
            omega
        simp [List.filter_cons, hs, hnone]
      · simp [List.filter_cons, hs]
    · simp only [insertSys, if_neg hp]
      by_cases hxp : x.priority = p <;> by_cases hs : s.priority = p <;>
        simp [List.filter_cons, hxp, hs, ih hxs]

theorem removeNamed_of_not_mem (n : String) (l : List Sys)
    (h : n ∉ l.map Sys.name) : removeNamed n l = (l, none) := by
  induction l with
  | nil => rfl
  | cons x xs ih =>
    simp only [List.map_cons, List.mem_cons] at h
    push_neg at h
    have hx : ¬ (x.name = n) := fun he => h.1 he.symm
    simp [removeNamed, hx, ih h.2]

theorem sysFoldAdd_sorted_stable (L : List Sys) :
    ∀ acc : List Sys,
      (L.map Sys.name).Nodup →
      (∀ s ∈ L, s.name ∉ acc.map Sys.name) →
      List.Pairwise (fun a b : Sys => a.priority ≤ b.priority) acc →
      List.Pairwise (fun a b : Sys => a.priority ≤ b.priority) (sysFoldAdd acc L) ∧
      (∀ p : Int, (sysFoldAdd acc L).filter (fun x => decide (x.priority = p)) =
        acc.filter (fun x => decide (x.priority = p)) ++
          L.filter (fun x => decide (x.priority = p))) ∧
      List.Perm (sysFoldAdd acc L) (acc ++ L) := by
  induction L with
  | nil =>
    intro acc _ _ hsorted
    refine ⟨hsorted, ?_, by simp [sysFoldAdd]⟩
    intro p
    simp [sysFoldAdd]
  | cons s L2 ih =>
    intro acc hnodup hdisj hsorted
    have hs_not : s.name ∉ acc.map Sys.name := hdisj s (List.mem_cons_self _ _)
    have hrm : removeNamed s.name acc = (acc, none) := removeNamed_of_not_mem _ _ hs_not
    have hfold : sysFoldAdd acc (s :: L2) = sysFoldAdd (insertSys s acc) L2 := by
      simp [sysFoldAdd, List.foldl_cons, hrm]
    simp only [List.map_cons, List.nodup_cons] at hnodup
    have hdisj2 : ∀ t ∈ L2, t.name ∉ (insertSys s acc).map Sys.name := by
      intro t ht hmem
      rcases List.mem_map.mp hmem with ⟨b, hb, hbe⟩
      rcases (mem_insertSys b s acc).mp hb with hb2 | hb2
      · rw [hb2] at hbe
        exact hnodup.1 (hbe ▸ List.mem_map_of_mem Sys.name ht)
      · exact hdisj t (List.mem_cons_of_mem s ht) (hbe ▸ List.mem_map_of_mem Sys.name hb2)
    have hsorted2 := pairwise_insertSys s acc hsorted
    obtain ⟨P1, P2, P3⟩ := ih (insertSys s acc) hnodup.2 hdisj2 hsorted2
    rw [hfold]
    refine ⟨P1, ?_, ?_⟩
    · intro p
      rw [P2 p, filter_insertSys s p acc hsorted]
      by_cases hs : s.priority = p
      · simp [List.filter_cons, hs]
      · simp [List.filter_cons, hs]
    · refine P3.trans ?_
      have h1 : List.Perm ((insertSys s acc) ++ L2) ((s :: acc) ++ L2) :=
        (insertSys_perm s acc).append_right L2
      exact h1.trans List.perm_middle.symm

theorem addSystems_systems {α : Type} (L : List Sys) :
    ∀ w : World α, (addSystems w L).systems = sysFoldAdd w.systems L := by
  induction L with
  | nil => intro w; rfl
  | cons s L2 ih =>
    intro w
    show (addSystems (addSystem w s).1 L2).systems = _
    rw [ih]
    rfl

/-- C3: starting from a fresh world and adding any collection of
(distinct-named) systems via `addSystem`, `update(dt)` invokes their
update hooks in ascending priority order with ties broken by insertion
order: the resulting system list is priority-sorted, restricting it to
any single priority value reproduces exactly the insertion-ordered
sublist of the added systems with that priority, it is a permutation of
the added systems, and the update log follows that list order.  In
particular, with A(priority 200) and B(priority 100) added in either
order, B's update is always invoked before A's. -/
theorem systems_update_in_priority_order_stable {α : Type} (L : List Sys) (dt : Int)
    (hnames : (L.map Sys.name).Nodup) :
    List.Pairwise (fun a b : Sys => a.priority ≤ b.priority)
      (addSystems (emptyWorld α) L).systems ∧
    (∀ p : Int, (addSystems (emptyWorld α) L).systems.filter
        (fun x => decide (x.priority = p)) =
      L.filter (fun x => decide (x.priority = p))) ∧
    List.Perm (addSystems (emptyWorld α) L).systems L ∧
    updateWorld (addSystems (emptyWorld α) L) dt =
      (addSystems (emptyWorld α) L).systems.map (fun s => SysCall.update s.id dt) ∧
    updateWorld (addSystems (emptyWorld α) [sysA, sysB]) dt =
      [SysCall.update sysB.id dt, SysCall.update sysA.id dt] ∧
    updateWorld (addSystems (emptyWorld α) [sysB, sysA]) dt =
      [SysCall.update sysB.id dt, SysCall.update sysA.id dt] := by
  have base := sysFoldAdd_sorted_stable L []
    hnames (by intro s _ h; simp [List.map_nil] at h) List.Pairwise.nil
  obtain ⟨P1, P2, P3⟩ := base
  have hsys : (addSystems (emptyWorld α) L).systems =
      sysFoldAdd (emptyWorld α).systems L := addSystems_systems L (emptyWorld α)
  refine ⟨?_, ?_, ?_, rfl, rfl, rfl⟩
  · rw [hsys]
    exact P1
  · intro p
    rw [hsys]
    simpa using P2 p
  · rw [hsys]
    simpa using P3

/-- C3 witness: adding A(priority 200) then B(priority 100) to a fresh
world yields a priority-sorted, stable, permutation-complete system list,
and the frame log runs B before A. -/
theorem systems_update_in_priority_order_stable_witness :
    (([sysA, sysB].map Sys.name).Nodup) ∧
    (List.Pairwise (fun a b : Sys => a.priority ≤ b.priority)
      (addSystems (emptyWorld Nat) [sysA, sysB]).systems ∧
    (∀ p : Int, (addSystems (emptyWorld Nat) [sysA, sysB]).systems.filter
        (fun x => decide (x.priority = p)) =
      [sysA, sysB].filter (fun x => decide (x.priority = p))) ∧
    List.Perm (addSystems (emptyWorld Nat) [sysA, sysB]).systems [sysA, sysB] ∧
    updateWorld (addSystems (emptyWorld Nat) [sysA, sysB]) 1 =
      (addSystems (emptyWorld Nat) [sysA, sysB]).systems.map
        (fun s => SysCall.update s.id 1) ∧
    updateWorld (addSystems (emptyWorld Nat) [sysA, sysB]) 1 =
      [SysCall.update sysB.id 1, SysCall.update sysA.id 1] ∧
    updateWorld (addSystems (emptyWorld Nat) [sysB, sysA]) 1 =
      [SysCall.update sysB.id 1, SysCall.update sysA.id 1]) :=
  ⟨by decide, systems_update_in_priority_order_stable [sysA, sysB] 1 (by decide)⟩

theorem removeNamed_spec (n : String) : ∀ l : List Sys,
    ((removeNamed n l).2 = none ∧ (removeNamed n l).1 = l ∧ ∀ y ∈ l, y.name ≠ n) ∨
    (∃ l1 x l2, l = l1 ++ x :: l2 ∧ x.name = n ∧ (∀ y ∈ l1, y.name ≠ n) ∧
      (removeNamed n l).1 = l1 ++ l2 ∧ (removeNamed n l).2 = some x) := by
  intro l
  induction l with
  | nil =>
    left
    exact ⟨rfl, rfl, by simp⟩
  | cons x xs ih =>
    by_cases hx : x.name = n
    · right
      exact ⟨[], x, xs, by simp, hx, by simp, by simp [removeNamed, hx], by simp [removeNamed, hx]⟩
    · rcases ih with ⟨h1, h2, h3⟩ | ⟨l1, y, l2, he, hy, hl1, hr1, hr2⟩
      · left
        refine ⟨?_, ?_, ?_⟩
        · simp [removeNamed, hx, h1]
        · simp [removeNamed, hx, h2]
        · intro z hz
          rcases List.mem_cons.mp hz with hz | hz
          · exact hz ▸ hx
          · exact h3 z hz
      · right
        refine ⟨x :: l1, y, l2, by simp [he], hy, ?_, ?_, ?_⟩
        · intro z hz
          rcases List.mem_cons.mp hz with hz | hz
          · exact hz ▸ hx
          · exact hl1 z hz
        · simp [removeNamed, hx, hr1]
        · simp [removeNamed, hx, hr2]

theorem removeNamed_fst_subset (n : String) (l : List Sys) :
    ∀ a ∈ (removeNamed n l).1, a ∈ l := by
  rcases removeNamed_spec n l with ⟨_, h2, _⟩ | ⟨l1, x, l2, he, _, _, hr1, _⟩
  · intro a ha
    exact h2 ▸ ha
  · intro a ha
    rw [hr1] at ha
    rw [he]
    rcases List.mem_append.mp ha with ha | ha
    · exact List.mem_append.mpr (Or.inl ha)
    · exact List.mem_append.mpr (Or.inr (List.mem_cons_of_mem x ha))

theorem removeNamed_nodup_found (l : List Sys) (old : Sys)
    (hnames : (l.map Sys.name).Nodup) (hids : (l.map Sys.id).Nodup)
    (hmem : old ∈ l) :
    (removeNamed old.name l).2 = some old ∧
    ∀ a ∈ (removeNamed old.name l).1, a.id ≠ old.id := by
  rcases removeNamed_spec old.name l with ⟨_, _, h3⟩ | ⟨l1, x, l2, he, hx, hl1, hr1, hr2⟩
  · exact absurd rfl (h3 old hmem)
  · rw [he] at hnames hids hmem
    simp only [List.map_append, List.map_cons] at hnames hids
    have hnx : x.name ∉ l1.map Sys.name ++ l2.map Sys.name :=
      (List.nodup_cons.mp (List.nodup_middle.mp hnames)).1
    have hix : x.id ∉ l1.map Sys.id ++ l2.map Sys.id :=
      (List.nodup_cons.mp (List.nodup_middle.mp hids)).1
    have hxold : x = old := by
      rcases List.mem_append.mp hmem with hm | hm
      · exact absurd rfl (hl1 old hm)
      · rcases List.mem_cons.mp hm with hm | hm
        · exact hm.symm
        · exfalso
          apply hnx
          apply List.mem_append.mpr
          right
          rw [hx]
          exact List.mem_map_of_mem Sys.name hm
    refine ⟨hxold ▸ hr2, ?_⟩
    intro a ha hae
    rw [hr1] at ha
    apply hix
    rw [hxold, ← hae]
    rcases List.mem_append.mp ha with ha | ha
    · exact List.mem_append.mpr (Or.inl (List.mem_map_of_mem Sys.id ha))
    · exact List.mem_append.mpr (Or.inr (List.mem_map_of_mem Sys.id ha))

theorem step_no_id_no_update {α : Type} (w : World α) (op : Op α) (i : Nat)
    (hid : ∀ a ∈ w.systems, a.id ≠ i)
    (hop : ∀ t : Sys, op = Op.addSys t → t.id ≠ i) :
    (∀ a ∈ (step w op).1.systems, a.id ≠ i) ∧
    (∀ c ∈ (step w op).2, ∀ dt : Int, c ≠ SysCall.update i dt) := by
  cases op with
  | createE => exact ⟨hid, by simp [step]⟩
  | destroyE e => exact ⟨hid, by simp [step]⟩
  | clearE => exact ⟨hid, by simp [step]⟩
  | register t =>
    refine ⟨?_, by simp [step]⟩
    intro a ha
    have : (step w (Op.register t)).1.systems = w.systems := by
      by_cases h : mapHas t.name w.storages = true <;> simp [step, registerComponent, h]
    rw [this] at ha
    exact hid a ha
  | addComp e t d =>
    refine ⟨?_, by simp [step]⟩
    intro a ha
    by_cases he : emExists w.em e = true
    · rw [show (step w (Op.addComp e t d)).1 = (addComponent w e t d).1 from rfl,
        addComponent_alive_parts w e t d he] at ha
      exact hid a ha
    · rw [Bool.not_eq_true] at he
      simp only [step, addComponent, he, Bool.false_eq_true, if_false] at ha
      exact hid a ha
  | getComp e t =>
    refine ⟨?_, by simp [step]⟩
    intro a ha
    have : (step w (Op.getComp e t)).1.systems = w.systems := by
      rcases hq : mapGet t.name w.storages with _ | s <;>
        simp [step, getComponent, getStorage, hq]
    rw [this] at ha
    exact hid a ha
  | removeComp e t =>
    refine ⟨?_, by simp [step]⟩
    intro a ha
    have : (step w (Op.removeComp e t)).1.systems = w.systems := by
      rcases hq : mapGet t.name w.storages with _ | s <;> simp [step, removeComponent, hq]
    rw [this] at ha
    exact hid a ha
  | removeAll e => exact ⟨hid, by simp [step]⟩
  | addSys t =>
    constructor
    · intro a ha
      simp only [step, addSystem] at ha
      rcases (mem_insertSys a t (removeNamed t.name w.systems).1).mp ha with ha | ha
      · exact ha ▸ hop t rfl
      · exact hid a (removeNamed_fst_subset t.name w.systems a ha)
    · intro c hc dt
      simp only [step, addSystem, List.mem_append] at hc
      rcases hc with hc | hc
      · rcases hr : (removeNamed t.name w.systems).2 with _ | old
        · rw [hr] at hc
          simp at hc
        · rw [hr] at hc
          simp at hc
          rw [hc.2]
          simp
      · simp at hc
        rw [hc.2]
        simp
  | removeSys n =>
    constructor
    · intro a ha
      simp only [step, removeSystem] at ha
      exact hid a (removeNamed_fst_subset n w.systems a ha)
    · intro c hc dt
      simp only [step, removeSystem] at hc
      rcases hr : (removeNamed n w.systems).2 with _ | old
      · rw [hr] at hc
        simp at hc
      · rw [hr] at hc
        simp at hc
        rw [hc.2]
        simp
  | updateW dt2 =>
    refine ⟨hid, ?_⟩
    intro c hc dt
    simp only [step, updateWorld, List.mem_map] at hc
    rcases hc with ⟨a, ha, hac⟩
    rw [← hac]
    intro hco
    have := SysCall.update.inj hco
    exact hid a ha this.1
  | destroyW =>
    constructor
    · intro a ha
      simp [step, destroyWorld, emptyWorld] at ha
    · intro c hc dt
      simp only [step, destroyWorld, List.mem_filterMap] at hc
      rcases hc with ⟨a, _, hac⟩
      rcases hcl : a.hasCleanup with _ | _ <;> rw [hcl] at hac <;> simp at hac
      rw [← hac]
      simp
  | onE ev h => exact ⟨hid, by simp [step]⟩
  | offE ev h =>
    refine ⟨?_, by simp [step]⟩
    intro a ha
    have : (step w (Op.offE ev h)).1.systems = w.systems := by
      rcases hq : mapGet ev w.eventHandlers with _ | hs <;> simp [step, unsubscribe, hq]
    rw [this] at ha
    exact hid a ha
  | emitE ev p => exact ⟨hid, by simp [step]⟩
  | setRes k v => exact ⟨hid, by simp [step]⟩

theorem runOps_no_update {α : Type} (ops : List (Op α)) : ∀ (w : World α) (i : Nat),
    (∀ a ∈ w.systems, a.id ≠ i) →
    (∀ t : Sys, Op.addSys t ∈ ops → t.id ≠ i) →
    ∀ c ∈ (runOps w ops).2, ∀ dt : Int, c ≠ SysCall.update i dt := by
  induction ops with
  | nil =>
    intro w i _ _ c hc
    simp [runOps] at hc
  | cons op rest ih =>
    intro w i hid hops c hc dt
    have hstep := step_no_id_no_update w op i hid
      (fun t ht => hops t (ht ▸ List.mem_cons_self _ _))
    rcases List.mem_append.mp hc with hc | hc
    · exact hstep.2 c hc dt
    · exact ih (step w op).1 i hstep.1
        (fun t ht => hops t (List.mem_cons_of_mem _ ht)) c hc dt

/-- C4: when a world (with well-formed, uniquely-named systems) already
contains a system instance named N, `addSystem` with a new instance also
named N invokes the old instance's cleanup exactly once in the call's
log, and along any subsequent operation sequence that does not re-add
that very instance (in particular across every later `update(dt)`), the
old instance's update is never invoked. -/
theorem readd_system_cleanup_once_old_never_updates {α : Type} (w : World α)
    (s old : Sys) (ops : List (Op α))
    (hnames : (w.systems.map Sys.name).Nodup)
    (hids : (w.systems.map Sys.id).Nodup)
    (hmem : old ∈ w.systems)
    (hname : old.name = s.name)
    (hcl : old.hasCleanup = true)
    (hid : s.id ≠ old.id)
    (hops : opsAvoidId old.id ops = true) :
    List.count (SysCall.cleanup old.id) (addSystem w s).2 = 1 ∧
    (∀ dt : Int, SysCall.update s.id dt ∈ updateWorld (addSystem w s).1 dt) ∧
    ∀ c ∈ (runOps (addSystem w s).1 ops).2, ∀ dt : Int,
      c ≠ SysCall.update old.id dt := by
  have hfound := removeNamed_nodup_found w.systems old hnames hids hmem
  rw [hname] at hfound
  have hlog : (addSystem w s).2 = [SysCall.cleanup old.id] ++
      (if s.hasInit = true then [SysCall.init s.id] else []) := by
    simp [addSystem, hfound.1, hcl]
  refine ⟨?_, ?_, ?_⟩
  · rw [hlog]
    rcases hin : s.hasInit with _ | _ <;>
      simp [hin, List.count_append, List.count_cons, List.count_nil]
  · intro dt
    simp only [updateWorld, List.mem_map]
    refine ⟨s, ?_, rfl⟩
    simp only [addSystem]
    exact (mem_insertSys s s (removeNamed s.name w.systems).1).mpr (Or.inl rfl)
  · have hsys : ∀ a ∈ (addSystem w s).1.systems, a.id ≠ old.id := by
      intro a ha
      simp only [addSystem] at ha
      rcases (mem_insertSys a s (removeNamed s.name w.systems).1).mp ha with ha | ha
      · exact ha ▸ hid
      · exact hfound.2 a ha
    have hops2 : ∀ t : Sys, Op.addSys t ∈ ops → t.id ≠ old.id := by
      intro t ht
      have ha := List.all_eq_true.mp hops _ ht
      simpa using ha
    exact runOps_no_update ops (addSystem w s).1 old.id hsys hops2

/-- C4 witness: replacing the system named A (instance id 5, with a
cleanup hook) by a new instance (id 6) cleans up the old one exactly
once, and two subsequent frames never invoke the old instance's update. -/
theorem readd_system_cleanup_once_old_never_updates_witness :
    ((c4World.systems.map Sys.name).Nodup ∧ (c4World.systems.map Sys.id).Nodup ∧
     c4Old ∈ c4World.systems ∧ c4Old.name = c4New.name ∧ c4Old.hasCleanup = true ∧
     c4New.id ≠ c4Old.id ∧
     opsAvoidId c4Old.id ([Op.updateW 1, Op.updateW 2] : List (Op Nat)) = true) ∧
    (List.count (SysCall.cleanup c4Old.id) (addSystem c4World c4New).2 = 1 ∧
     (∀ dt : Int, SysCall.update c4New.id dt ∈ updateWorld (addSystem c4World c4New).1 dt) ∧
     ∀ c ∈ (runOps (addSystem c4World c4New).1
         ([Op.updateW 1, Op.updateW 2] : List (Op Nat))).2, ∀ dt : Int,
       c ≠ SysCall.update c4Old.id dt) :=
  ⟨⟨by decide, by decide, by decide, by decide, by decide, by decide, by decide⟩,
   readd_system_cleanup_once_old_never_updates c4World c4New c4Old
     [Op.updateW 1, Op.updateW 2] (by decide) (by decide) (by decide) (by decide)
     (by decide) (by decide) (by decide)⟩
